import Mathlib

/-!
Verification of the iMessage-analysis ETL pipeline
(`src/imessage_analysis/etl/` and `src/imessage_analysis/snapshot.py`).

The Python modules are shallowly embedded: strings are `List Char`
(Python `str.strip` / `str.lower` / regex digit classes are modelled on
ASCII), SQLite tables are Lean lists of typed rows in iteration order,
timestamps are the `Nat` instant (seconds for ISO-8601 strings of second
precision, whose lexicographic order coincides with the chronological one,
and nanoseconds for Apple raw dates), and the UUID generator is a counter
threaded through the database state.  Filesystem / connection effects that
cannot be embedded (snapshot creation, exception control flow) are made
explicit: possibly failing steps become `Except` values.
-/

namespace IMessage

/-- Strings are modelled as lists of characters. -/
abbrev Str := List Char

/-- Python `str.strip()`: remove leading and trailing whitespace
(`normalizers.py` line 61, `identity.py`, …). -/
def pyStrip (l : Str) : Str :=
  ((l.dropWhile Char.isWhitespace).reverse.dropWhile Char.isWhitespace).reverse

/-- `DIGITS_ONLY_PATTERN.sub("", s)` / `re.sub(r"\D", "", s)`: keep only
digit characters (`normalizers.py` line 30, `identity.py` line 44). -/
def digitsOf (l : Str) : Str := l.filter Char.isDigit

/-- `normalize_phone` (`normalizers.py` lines 35–89).  The branches appear
in source order: empty input, no digits after stripping, leading `+` on the
stripped input, exactly 10 digits (`US_PHONE_PATTERN`), 11 digits starting
with `1`, at least 7 digits, otherwise the original input. -/
def normalizePhone (raw : Str) : Str :=
  if raw = [] then raw
  else if digitsOf (pyStrip raw) = [] then raw
  else if (pyStrip raw).head? = some '+' then '+' :: digitsOf (pyStrip raw)
  else if (digitsOf (pyStrip raw)).length = 10 then
    '+' :: '1' :: digitsOf (pyStrip raw)
  else if (digitsOf (pyStrip raw)).length = 11 ∧
      (digitsOf (pyStrip raw)).head? = some '1' then
    '+' :: digitsOf (pyStrip raw)
  else if 7 ≤ (digitsOf (pyStrip raw)).length then '+' :: digitsOf (pyStrip raw)
  else raw

/-- `normalize_email` (`normalizers.py` lines 92–122): strip and lowercase;
if the result contains no `@`, return the original input. -/
def normalizeEmail (raw : Str) : Str :=
  if raw = [] then raw
  else if '@' ∈ (pyStrip raw).map Char.toLower then (pyStrip raw).map Char.toLower
  else raw

/-- `detect_contact_type` (`normalizers.py` lines 125–167).  The Python
float test `digit_ratio >= 0.5` with `digit_ratio = digits / kept` is the
exact integer comparison `kept ≤ 2 * digits` (both integers are far below
any range where float rounding could flip the comparison). -/
def detectContactType (value : Str) : Str :=
  if value = [] then "unknown".toList
  else if '@' ∈ pyStrip value then "email".toList
  else
    if 7 ≤ (digitsOf (pyStrip value)).length ∧ (digitsOf (pyStrip value)).length ≤ 15 ∧
        ((pyStrip value).filter (fun c => ¬(c = ' ' ∨ c = '-'))).length ≤
          2 * (digitsOf (pyStrip value)).length then
      "phone".toList
    else "unknown".toList

/-- `normalize_handle` (`normalizers.py` lines 170–196). -/
def normalizeHandle (value : Str) : Str × Str :=
  if detectContactType value = "email".toList then
    (normalizeEmail value, "email".toList)
  else if detectContactType value = "phone".toList then
    (normalizePhone value, "phone".toList)
  else
    (if value = [] then value else pyStrip value, "unknown".toList)

/-! ## Identity resolution (`etl/identity.py`) -/

/-- A row of `dim_contact_method` (in table iteration order). -/
structure ContactMethod where
  method_id : Str
  person_id : Str
  type : Str
  value_raw : Str
  value_normalized : Str
  created_at : Nat
deriving DecidableEq, Repr

/-- Python `s[-10:]` on a string of length ≥ 10. -/
def lastTen (digits : Str) : Str := digits.drop (digits.length - 10)

/-- `resolve_handle_to_person` (`identity.py` lines 47–107).
Strategy 1: first row of `dim_contact_method` whose `value_normalized`
equals the handle's.  Strategy 2 (phone handles whose normalized value has
at least 10 digits): first `type = 'phone'` row whose digits number at
least 10 and whose last 10 digits agree with the handle's. -/
def resolveHandleToPerson (cms : List ContactMethod) (handleNormalized : Str)
    (handleType : Str) : Option Str :=
  match cms.find? (fun cm => cm.value_normalized = handleNormalized) with
  | some cm => some cm.person_id
  | none =>
    if handleType = "phone".toList then
      if 10 ≤ (digitsOf handleNormalized).length then
        match cms.find? (fun cm => cm.type = "phone".toList ∧
            10 ≤ (digitsOf cm.value_normalized).length ∧
            lastTen (digitsOf cm.value_normalized) =
              lastTen (digitsOf handleNormalized)) with
        | some cm => some cm.person_id
        | none => none
      else none
    else none

/-- A row of `dim_person`. -/
structure PersonRow where
  person_id : Str
  first_name : Option Str
  last_name : Option Str
  display_name : Str
  source : Str
  created_at : Nat
  updated_at : Nat
deriving DecidableEq, Repr

/-- `_generate_person_id` (`identity.py` line 37, `loaders.py` line 262):
`uuid.uuid4()` is modelled by a counter threaded through the database
state; only the freshness-irrelevant opaqueness of the id matters to the
claims. -/
def freshPersonId (n : Nat) : Str := (Nat.repr n).toList

/-- The display name synthesized by `create_unknown_person`
(`identity.py` lines 133–144). -/
def unknownDisplayName (handleValue handleType : Str) : Str :=
  if handleType = "phone".toList then
    "Unknown (".toList ++ handleValue ++ [')']
  else if handleType = "email".toList then
    (if '@' ∈ handleValue then handleValue.takeWhile (fun c => ¬(c = '@'))
     else handleValue) ++ " (unresolved)".toList
  else if 20 < handleValue.length then
    "Unknown (".toList ++ handleValue.take 20 ++ "...)".toList
  else "Unknown (".toList ++ handleValue ++ [')']

/-- `create_unknown_person` (`identity.py` lines 110–157): insert a new
`dim_person` row with `source='inferred'`; returns the updated table, the
advanced id supply and the new person id. -/
def createUnknownPerson (persons : List PersonRow) (nextId : Nat)
    (handleValue handleType : Str) (now : Nat) : List PersonRow × Nat × Str :=
  let pid := freshPersonId nextId
  (persons ++ [{ person_id := pid, first_name := none, last_name := none,
                 display_name := unknownDisplayName handleValue handleType,
                 source := "inferred".toList, created_at := now, updated_at := now }],
   nextId + 1, pid)

/-! ## Loader data model (`etl/loaders.py`, `etl/extractors.py`) -/

/-- An extracted `Handle` record (`extractors.py` lines 35–45). -/
structure Handle where
  rowid : Nat
  value_raw : Str
  value_normalized : Str
  handle_type : Str
  service : Option Str := none
  country : Option Str := none
deriving DecidableEq, Repr

/-- An extracted `Message` record (`extractors.py` lines 47–57); `date_utc`
holds the instant (Unix seconds) denoted by the second-precision ISO-8601
string of the Python record. -/
structure Message where
  rowid : Nat
  chat_id : Option Nat
  handle_id : Option Nat
  text : Option Str
  date_utc : Nat
  date_local : Option Nat
  is_from_me : Bool
deriving DecidableEq, Repr

/-- A row of `dim_handle` (`schema.py`). -/
structure DimHandleRow where
  handle_id : Nat
  value_raw : Str
  value_normalized : Str
  handle_type : Str
  person_id : Option Str
  created_at : Nat
  updated_at : Nat
deriving DecidableEq, Repr

/-- A row of `fact_message` (`schema.py`).  `person_id` is not part of the
insert column list of `load_messages`, so it starts out NULL and is filled
by `link_messages_to_persons`. -/
structure FactMessageRow where
  message_id : Nat
  chat_id : Option Nat
  date_utc : Nat
  date_local : Option Nat
  is_from_me : Bool
  handle_id : Option Nat
  person_id : Option Str
  text : Option Str
  created_at : Nat
deriving DecidableEq, Repr

/-- The scalar subquery `SELECT ... FROM dim_handle WHERE handle_id = ?`. -/
def findHandle (tbl : List DimHandleRow) (hid : Nat) : Option DimHandleRow :=
  tbl.find? (fun r => r.handle_id = hid)

/-- One `INSERT OR REPLACE` of `load_handles` (`loaders.py` lines 55–78):
the conflicting row (same primary key) is deleted and the new row inserted;
`person_id` is re-read from the pre-statement row (NULL when absent) and
`created_at` is `COALESCE(old.created_at, now)`. -/
def loadHandlesStep (tbl : List DimHandleRow) (h : Handle) (now : Nat) :
    List DimHandleRow :=
  let newRow : DimHandleRow :=
    { handle_id := h.rowid
      value_raw := h.value_raw
      value_normalized := h.value_normalized
      handle_type := h.handle_type
      person_id := (findHandle tbl h.rowid).bind (fun r => r.person_id)
      created_at := match findHandle tbl h.rowid with
        | some r => r.created_at
        | none => now
      updated_at := now }
  tbl.filter (fun r => ¬(r.handle_id = h.rowid)) ++ [newRow]

/-- `load_handles` (`loaders.py` lines 36–83): upsert every record in list
order (each statement sees the effect of the previous ones through the
shared connection) and return `len(handles)`. -/
def loadHandles (tbl : List DimHandleRow) (handles : List Handle) (now : Nat) :
    List DimHandleRow × Nat :=
  (handles.foldl (fun t h => loadHandlesStep t h now) tbl, handles.length)

/-- The loop of `load_messages` (`loaders.py` lines 118–141): `INSERT OR
IGNORE` keyed by `message_id`, with a handle id not in `valid_handle_ids`
replaced by NULL; `n` counts the newly inserted rows (`cursor.rowcount`). -/
def loadMessagesGo (validIds : List Nat) (now : Nat) :
    List FactMessageRow → Nat → List Message → List FactMessageRow × Nat
  | fact, n, [] => (fact, n)
  | fact, n, m :: ms =>
    let hid : Option Nat := match m.handle_id with
      | some h => if h ∈ validIds then some h else none
      | none => none
    if fact.any (fun r => r.message_id = m.rowid) then
      loadMessagesGo validIds now fact n ms
    else
      loadMessagesGo validIds now
        (fact ++ [{ message_id := m.rowid, chat_id := m.chat_id,
                    date_utc := m.date_utc, date_local := m.date_local,
                    is_from_me := m.is_from_me, handle_id := hid,
                    person_id := none, text := m.text, created_at := now }])
        (n + 1) ms

/-- `load_messages` (`loaders.py` lines 86–147): the set of valid handle
ids is computed once, before the loop. -/
def loadMessages (handleTbl : List DimHandleRow) (fact : List FactMessageRow)
    (msgs : List Message) (now : Nat) : List FactMessageRow × Nat :=
  loadMessagesGo (handleTbl.map (fun r => r.handle_id)) now fact 0 msgs

/-! ## Database state and the remaining pipeline steps -/

/-- The mutable contents of `analysis.db` that the pipeline touches.  The
`etl_state` rows `last_message_date` and `last_sync` are the only keys the
orchestrator reads or writes (besides the schema version, which no claim
concerns); `nextId` is the UUID supply. -/
structure AnalysisDb where
  dimHandle : List DimHandleRow
  factMessage : List FactMessageRow
  dimPerson : List PersonRow
  dimContactMethod : List ContactMethod
  lastMessageDate : Option Nat
  lastSync : Option Nat
  nextId : Nat
deriving DecidableEq, Repr

/-- A fresh target database (what `create_schema` produces). -/
def emptyAnalysisDb : AnalysisDb :=
  { dimHandle := [], factMessage := [], dimPerson := [], dimContactMethod := [],
    lastMessageDate := none, lastSync := none, nextId := 0 }

/-- `link_handle_to_person` (`identity.py` lines 160–183):
`UPDATE dim_handle SET person_id = ?, updated_at = ? WHERE handle_id = ?`. -/
def linkHandleToPerson (tbl : List DimHandleRow) (hid : Nat) (pid : Str)
    (now : Nat) : List DimHandleRow :=
  tbl.map (fun r => if r.handle_id = hid then
    { r with person_id := some pid, updated_at := now } else r)

/-- One iteration of the `resolve_all_handles` loop (`identity.py` lines
214–224) for the triple `(handle_id, value_normalized, handle_type)`.
`if not person_id:` is Python truthiness: both `None` and the empty string
fall through to `create_unknown_person`. -/
def resolveOneHandle (db : AnalysisDb) (hid : Nat) (v t : Str) (now : Nat) :
    AnalysisDb :=
  match resolveHandleToPerson db.dimContactMethod v t with
  | some p =>
    if p = [] then
      { db with dimPerson := (createUnknownPerson db.dimPerson db.nextId v t now).1,
                nextId := (createUnknownPerson db.dimPerson db.nextId v t now).2.1,
                dimHandle := linkHandleToPerson db.dimHandle hid
                  (createUnknownPerson db.dimPerson db.nextId v t now).2.2 now }
    else
      { db with dimHandle := linkHandleToPerson db.dimHandle hid p now }
  | none =>
    { db with dimPerson := (createUnknownPerson db.dimPerson db.nextId v t now).1,
              nextId := (createUnknownPerson db.dimPerson db.nextId v t now).2.1,
              dimHandle := linkHandleToPerson db.dimHandle hid
                (createUnknownPerson db.dimPerson db.nextId v t now).2.2 now }

/-- The loop of `resolve_all_handles` over the snapshotted list of
unresolved triples. -/
def resolveAllGo (now : Nat) : AnalysisDb → List (Nat × Str × Str) → AnalysisDb
  | db, [] => db
  | db, (hid, v, t) :: items =>
    resolveAllGo now (resolveOneHandle db hid v t now) items

/-- `resolve_all_handles` (`identity.py` lines 186–227): snapshot the
handles with `person_id IS NULL`, resolve or invent a person for each, and
return how many were processed. -/
def resolveAllHandles (db : AnalysisDb) (now : Nat) : AnalysisDb × Nat :=
  let unresolved := (db.dimHandle.filter (fun r => r.person_id = none)).map
    (fun r => (r.handle_id, r.value_normalized, r.handle_type))
  (resolveAllGo now db unresolved, unresolved.length)

/-- `link_messages_to_persons` (`loaders.py` lines 224–254): for every
message with a non-NULL handle id and NULL person id, copy the handle's
person id (NULL when the handle row is absent); `cursor.rowcount` counts
every matched row. -/
def linkMessagesToPersons (db : AnalysisDb) : AnalysisDb × Nat :=
  let touched := fun (m : FactMessageRow) => m.handle_id.isSome ∧ m.person_id = none
  ({ db with factMessage := db.factMessage.map (fun m =>
      if touched m then
        { m with person_id := m.handle_id.bind (fun h =>
            (findHandle db.dimHandle h).bind (fun r => r.person_id)) }
      else m) },
   (db.factMessage.filter (fun m => touched m)).length)

/-! ## Extraction (`etl/extractors.py`) -/

/-- `APPLE_EPOCH_OFFSET` (`extractors.py` line 32). -/
def appleEpochOffset : Nat := 978307200

/-- `_convert_apple_timestamp` (`extractors.py` lines 118–139) restricted
to its instant: the produced second-precision ISO string denotes
`ns / 10^9 + appleEpochOffset` Unix seconds (the float division is exact
at second granularity for all on-disk values). -/
def nsToSec (ns : Nat) : Nat := ns / 1000000000 + appleEpochOffset

/-- The inverse conversion inside `extract_messages` (`extractors.py`
lines 219–224): `int((unix_ts - APPLE_EPOCH_OFFSET) * 1e9)`. -/
def secToAppleNs (sec : Nat) : Nat := (sec - appleEpochOffset) * 1000000000

/-- A row of the source `handle` table. -/
structure SrcHandle where
  rowid : Nat
  ident : Option Str
  service : Option Str := none
  country : Option Str := none
deriving DecidableEq, Repr

/-- A row of the source `message` table joined with `chat_message_join`;
`date` is Apple nanoseconds. -/
structure SrcMessage where
  rowid : Nat
  chat_id : Option Nat
  handle_id : Option Nat
  text : Option Str
  date : Nat
  is_from_me : Bool
deriving DecidableEq, Repr

/-- The source `chat.db`, rows in table iteration order. -/
structure ChatDb where
  handles : List SrcHandle
  messages : List SrcMessage
deriving DecidableEq, Repr

/-- `extract_handles` (`extractors.py` lines 142–183): normalize
`raw_id or ""` of every handle row.  (`ORDER BY ROWID` only fixes the
sequence; `handles` is taken in that order.) -/
def extractHandles (src : ChatDb) : List Handle :=
  src.handles.map (fun h =>
    let raw := h.ident.getD []
    let nt := normalizeHandle raw
    { rowid := h.rowid, value_raw := raw, value_normalized := nt.1,
      handle_type := nt.2, service := h.service, country := h.country })

/-- The `Message` record built from one source row (`extractors.py`
lines 241–251); `date_local` is always `None` there. -/
def convMsg (m : SrcMessage) : Message :=
  { rowid := m.rowid, chat_id := m.chat_id, handle_id := m.handle_id,
    text := m.text, date_utc := nsToSec m.date, date_local := none,
    is_from_me := m.is_from_me }

/-- `extract_messages` (`extractors.py` lines 186–254): an optional
`since` instant becomes the exclusive lower bound `m.date > apple_ns`;
rows with a zero (falsy) date are dropped.  (`ORDER BY m.date` only fixes
the sequence and is irrelevant to every property proved below.) -/
def extractMessages (src : ChatDb) (sinceDate : Option Nat) : List Message :=
  let rows := match sinceDate with
    | none => src.messages
    | some sec => src.messages.filter (fun m => secToAppleNs sec < m.date)
  rows.filterMap (fun m => if m.date = 0 then none else some (convMsg m))

/-! ## The orchestrator (`etl/pipeline.py`) -/

/-- `ETLResult` (`pipeline.py` lines 68–108); `duration_seconds` (wall
clock) is not modelled, `snapshot_path` keeps only the path string. -/
structure ETLResult where
  success : Bool
  handles_extracted : Nat
  handles_loaded : Nat
  messages_extracted : Nat
  messages_loaded : Nat
  handles_resolved : Nat
  messages_linked : Nat
  is_incremental : Bool
  contacts_extracted : Nat := 0
  contact_methods_loaded : Nat := 0
  contacts_synced : Bool := false
  snapshot_path : Option Str := none
  snapshot_created : Bool := false
  error : Option Str := none
deriving DecidableEq, Repr

/-- `max(m.date_utc for m in messages)` (`pipeline.py` line 248): the ISO
strings compare lexicographically exactly as their instants. -/
def maxDateUtc (msgs : List Message) : Nat :=
  msgs.foldl (fun acc m => Nat.max acc m.date_utc) 0

/-- `run_etl` (`pipeline.py` lines 142–294) on its happy path, without a
contacts database (`contacts_db_path=None`), as one pure state transformer.
Step numbering follows the source; `last_message_date` is truthy exactly
when the state key is present because the stored ISO strings are never
empty. -/
def runEtl (src : ChatDb) (db : AnalysisDb) (forceFull : Bool) (now : Nat) :
    ETLResult × AnalysisDb :=
  -- incremental checkpoint (lines 188–193)
  let lastMessageDate := if forceFull then none else db.lastMessageDate
  let isIncremental := lastMessageDate.isSome
  -- Step 2–3: handles (lines 195–201)
  let handles := extractHandles src
  let lh := loadHandles db.dimHandle handles now
  let db1 := { db with dimHandle := lh.1 }
  -- Step 4–5: messages (lines 203–209)
  let msgs := extractMessages src lastMessageDate
  let lm := loadMessages db1.dimHandle db1.factMessage msgs now
  let db2 := { db1 with factMessage := lm.1 }
  -- Step 7: identity (lines 236–238)
  let ra := resolveAllHandles db2 now
  -- Step 8: link messages (lines 240–242)
  let lk := linkMessagesToPersons ra.1
  -- Step 9: ETL state (lines 244–252)
  let db5 := if msgs.isEmpty then lk.1
    else { lk.1 with lastMessageDate := some (maxDateUtc msgs) }
  let db6 := { db5 with lastSync := some now }
  ({ success := true
     handles_extracted := handles.length
     handles_loaded := lh.2
     messages_extracted := msgs.length
     messages_loaded := lm.2
     handles_resolved := ra.2
     messages_linked := lk.2
     is_incremental := isIncremental }, db6)

/-! ## Spec-side definitions (for the refinement claims) -/

/-- Modelled from the spec (§4.1): «trim whitespace; note whether the
original started with `+`; strip all non-digit characters.  If empty after
stripping, return the original input unchanged.  If the original had a
leading `+`, return `+`+digits.  Else if digit count is exactly 10, return
`+1`+digits.  Else if digit count is 11 and starts with `1`, return
`+`+digits.  Else if digit count ≥ 7, return `+`+digits.  Else return the
original input unchanged.»  (The leading `+` is read off the trimmed
input, as in the scenario examples.) -/
def normalizePhoneSpecCases (raw : Str) : Str :=
  if digitsOf (pyStrip raw) = [] then raw
  else if (pyStrip raw).head? = some '+' then '+' :: digitsOf (pyStrip raw)
  else if (digitsOf (pyStrip raw)).length = 10 then
    '+' :: '1' :: digitsOf (pyStrip raw)
  else if (digitsOf (pyStrip raw)).length = 11 ∧
      (digitsOf (pyStrip raw)).head? = some '1' then
    '+' :: digitsOf (pyStrip raw)
  else if 7 ≤ (digitsOf (pyStrip raw)).length then '+' :: digitsOf (pyStrip raw)
  else raw

/-- Modelled from the spec (§4.5): «the last 10 digits of» a value — they
exist only when the value has at least 10 digits. -/
def lastTenOpt (s : Str) : Option Str :=
  if 10 ≤ (digitsOf s).length then some (lastTen (digitsOf s)) else none

/-- Modelled from the spec (§4.5): comparing the last 10 digits of the
handle value with the last 10 digits of a contact-method value. -/
def fuzzyLastTenMatch (handleValue cmValue : Str) : Bool :=
  match lastTenOpt handleValue, lastTenOpt cmValue with
  | some a, some b => a = b
  | _, _ => false

/-- Modelled from the spec (§4.5): Strategy 1 — first exact match of the
normalized value, any type; Strategy 2 (phone only, when Strategy 1
fails) — first phone-type contact method whose last 10 digits equal the
handle's; otherwise `none`. -/
def resolveHandleToPersonSpec (cms : List ContactMethod) (handleNormalized : Str)
    (handleType : Str) : Option Str :=
  match cms.find? (fun cm => cm.value_normalized = handleNormalized) with
  | some cm => some cm.person_id
  | none =>
    if handleType = "phone".toList then
      (cms.find? (fun cm => cm.type = "phone".toList ∧
        fuzzyLastTenMatch handleNormalized cm.value_normalized = true)).map
        (fun cm => cm.person_id)
    else none

/-! ## Referential-integrity predicates (spec §3 invariants) -/

/-- The primary keys of `dim_handle`. -/
def handleIds (tbl : List DimHandleRow) : List Nat := tbl.map (fun r => r.handle_id)

/-- The primary keys of `dim_person`. -/
def personIds (tbl : List PersonRow) : List Str := tbl.map (fun r => r.person_id)

/-- The primary keys of `fact_message`. -/
def factIds (tbl : List FactMessageRow) : List Nat := tbl.map (fun r => r.message_id)

/-- Every message's non-NULL handle reference points at an existing
`dim_handle` row. -/
def messageRefsValid (db : AnalysisDb) : Prop :=
  ∀ m ∈ db.factMessage, ∀ h, m.handle_id = some h → h ∈ handleIds db.dimHandle

/-- Every handle's non-NULL person reference points at an existing
`dim_person` row. -/
def handleRefsValid (db : AnalysisDb) : Prop :=
  ∀ r ∈ db.dimHandle, ∀ p, r.person_id = some p → p ∈ personIds db.dimPerson

/-- Every contact method's person reference points at an existing
`dim_person` row. -/
def contactMethodRefsValid (db : AnalysisDb) : Prop :=
  ∀ cm ∈ db.dimContactMethod, cm.person_id ∈ personIds db.dimPerson

/-- Number of `dim_handle` rows stored under a native id. -/
def countHandleRows (tbl : List DimHandleRow) (hid : Nat) : Nat :=
  (tbl.filter (fun r => r.handle_id = hid)).length

/-! ## `run_etl` with explicit exception control flow

`run_etl` wraps its entire body in `try ... except Exception` (`pipeline.py`
lines 166–294).  To reason about that control flow the body is embedded a
second time with every possibly-raising call abstracted as an `Except`
value supplied by an `EtlSteps` record; an error is tagged with the value
the local `is_incremental` variable has at the point the exception is
raised, since the `except` clause (lines 283–294) reads it. -/

/-- The possibly-raising calls made by `run_etl`, in source order.
`contactsRequested` is `contacts_db_path is not None`; `contactsConnected`
is whether `_open_contacts_db` returned a connection (that helper catches
its own `sqlite3` errors and returns `None`, lines 122–139). -/
structure EtlSteps where
  createSchema : Except Str Unit
  openChatDb : Except Str Unit
  openAnalysisDb : Except Str Unit
  enableForeignKeys : Except Str Unit
  getLastMessageDate : Except Str (Option Str)
  extractHandles : Except Str (List Handle)
  loadHandles : List Handle → Except Str Nat
  extractMessages : Option Str → Except Str (List Message)
  loadMessages : List Message → Except Str Nat
  contactsRequested : Bool
  contactsConnected : Bool
  extractContacts : Except Str Nat
  extractContactPhones : Except Str Unit
  extractContactEmails : Except Str Unit
  loadPersonsFromContacts : Except Str Nat
  loadContactMethods : Except Str Nat
  updateLastContactsSync : Except Str Unit
  resolveAllHandles : Except Str Nat
  linkMessagesToPersons : Except Str Nat
  updateLastMessageDate : Nat → Except Str Unit
  updateLastSync : Except Str Unit

/-- Tag an exception with the current value of `is_incremental`. -/
def tagged (b : Bool) : Except Str α → Except (Str × Bool) α
  | .ok a => .ok a
  | .error e => .error (e, b)

/-- Python truthiness of the `last_message_date` string (`if
last_message_date:`, line 192): present and non-empty. -/
def pyTruthyStr : Option Str → Bool
  | some s => !s.isEmpty
  | none => false

/-- The values `run_etl` computes on its happy path and pours into the
success `ETLResult` (lines 256–269). -/
structure RunOutcome where
  isIncremental : Bool
  handlesExtracted : Nat
  handlesLoaded : Nat
  messagesExtracted : Nat
  messagesLoaded : Nat
  handlesResolved : Nat
  messagesLinked : Nat
  contactsExtracted : Nat
  contactMethodsLoaded : Nat
  contactsSynced : Bool
deriving DecidableEq, Repr

/-- The `try` body of `run_etl` (lines 166–272), steps in source order. -/
def runEtlCore (s : EtlSteps) (forceFull : Bool) :
    Except (Str × Bool) RunOutcome := do
  tagged false s.createSchema
  tagged false s.openChatDb
  tagged false s.openAnalysisDb
  tagged false s.enableForeignKeys
  let lmd ← tagged false (if forceFull then Except.ok none else s.getLastMessageDate)
  let isInc := pyTruthyStr lmd
  let handles ← tagged isInc s.extractHandles
  let handlesLoaded ← tagged isInc (s.loadHandles handles)
  let msgs ← tagged isInc (s.extractMessages lmd)
  let messagesLoaded ← tagged isInc (s.loadMessages msgs)
  let contacts ←
    if s.contactsRequested && s.contactsConnected then do
      let contactsExtracted ← tagged isInc s.extractContacts
      tagged isInc s.extractContactPhones
      tagged isInc s.extractContactEmails
      let _personsLoaded ← tagged isInc s.loadPersonsFromContacts
      let contactMethodsLoaded ← tagged isInc s.loadContactMethods
      tagged isInc s.updateLastContactsSync
      pure (contactsExtracted, contactMethodsLoaded, true)
    else pure (0, 0, false)
  let resolved ← tagged isInc s.resolveAllHandles
  let linked ← tagged isInc s.linkMessagesToPersons
  if msgs.isEmpty then pure ()
  else tagged isInc (s.updateLastMessageDate (maxDateUtc msgs))
  tagged isInc s.updateLastSync
  pure { isIncremental := isInc, handlesExtracted := handles.length,
         handlesLoaded := handlesLoaded, messagesExtracted := msgs.length,
         messagesLoaded := messagesLoaded, handlesResolved := resolved,
         messagesLinked := linked, contactsExtracted := contacts.1,
         contactMethodsLoaded := contacts.2.1, contactsSynced := contacts.2.2 }

/-- The success `ETLResult` (lines 256–269). -/
def successResult (o : RunOutcome) : ETLResult :=
  { success := true, handles_extracted := o.handlesExtracted,
    handles_loaded := o.handlesLoaded, messages_extracted := o.messagesExtracted,
    messages_loaded := o.messagesLoaded, handles_resolved := o.handlesResolved,
    messages_linked := o.messagesLinked, is_incremental := o.isIncremental,
    contacts_extracted := o.contactsExtracted,
    contact_methods_loaded := o.contactMethodsLoaded,
    contacts_synced := o.contactsSynced, error := none }

/-- The `except Exception` result (lines 283–294): `success=False`, every
count zero, `is_incremental` as currently assigned, `error=str(e)`. -/
def failureResult (e : Str) (isInc : Bool) : ETLResult :=
  { success := false, handles_extracted := 0, handles_loaded := 0,
    messages_extracted := 0, messages_loaded := 0, handles_resolved := 0,
    messages_linked := 0, is_incremental := isInc, error := some e }

/-- `run_etl` as `try`-body plus `except Exception` clause. -/
def runEtlCatch (s : EtlSteps) (forceFull : Bool) : ETLResult :=
  match runEtlCore s forceFull with
  | .ok o => successResult o
  | .error (e, b) => failureResult e b

/-! ## `run_etl_with_snapshot` (`pipeline.py` lines 328–409) -/

/-- The exceptions `get_or_create_snapshot` can raise (`snapshot.py` lines
241–243 document `FileNotFoundError` and `PermissionError`; anything else,
e.g. an `sqlite3` error from the backup, is some other exception).  The
payload is `str(e)`. -/
inductive SnapshotError where
  | fileNotFound (msg : Str)
  | permissionError (msg : Str)
  | other (msg : Str)
deriving DecidableEq, Repr

/-- The result built by the `except (FileNotFoundError, PermissionError)`
clause of `run_etl_with_snapshot` (lines 379–393). -/
def snapshotFailureResult (msg : Str) : ETLResult :=
  { success := false, handles_extracted := 0, handles_loaded := 0,
    messages_extracted := 0, messages_loaded := 0, handles_resolved := 0,
    messages_linked := 0, is_incremental := false,
    error := some ("Snapshot error: ".toList ++ msg) }

/-- `run_etl_with_snapshot` (lines 328–409) with the filesystem-bound
snapshot acquisition abstracted as its outcome `acquire` (the path of the
snapshot, or the exception `get_or_create_snapshot` raised) and the inner
`run_etl` call abstracted as `runInner`.  `snapshotExisted` is the
pre-computed freshness check of lines 366–369. -/
def runEtlWithSnapshot (acquire : Except SnapshotError Str)
    (snapshotExisted forceNewSnapshot : Bool) (runInner : Str → ETLResult) :
    Except SnapshotError ETLResult :=
  match acquire with
  | .ok snapshotPath =>
    .ok { runInner snapshotPath with
          snapshot_path := some snapshotPath,
          snapshot_created := !snapshotExisted || forceNewSnapshot }
  | .error (.fileNotFound m) => .ok (snapshotFailureResult m)
  | .error (.permissionError m) => .ok (snapshotFailureResult m)
  | .error (.other m) => .error (.other m)

/-! ## Character and string lemmas -/

theorem whitespace_false_of_isDigit {c : Char} (h : c.isDigit = true) :
    c.isWhitespace = false := by
  rcases Bool.eq_false_or_eq_true c.isWhitespace with hw | hw
  · have hc : c = ' ' ∨ c = '\t' ∨ c = '\r' ∨ c = '\n' := by
      simp only [Char.isWhitespace, Bool.or_eq_true, decide_eq_true_eq] at hw
      tauto
    rcases hc with h1 | h1 | h1 | h1 <;> subst h1 <;> exact absurd h (by decide)
  · exact hw

theorem ne_plus_of_isDigit {c : Char} (h : c.isDigit = true) : ¬(c = '+') :=
  fun he => absurd (he ▸ h) (by decide)

theorem toNat_of_isWhitespace {c : Char} (h : c.isWhitespace = true) :
    c.toNat = 32 ∨ c.toNat = 9 ∨ c.toNat = 13 ∨ c.toNat = 10 := by
  have hc : c = ' ' ∨ c = '\t' ∨ c = '\r' ∨ c = '\n' := by
    simp only [Char.isWhitespace, Bool.or_eq_true, decide_eq_true_eq] at h
    tauto
  rcases hc with h1 | h1 | h1 | h1 <;> subst h1 <;> decide

theorem isWhitespace_false_of_65_le {c : Char} (h : 65 ≤ c.toNat) :
    c.isWhitespace = false := by
  rcases Bool.eq_false_or_eq_true c.isWhitespace with hw | hw
  · exfalso
    rcases toNat_of_isWhitespace hw with h1 | h1 | h1 | h1 <;> omega
  · exact hw

theorem toLower_lo (c : Char) (h : ¬(65 ≤ c.toNat ∧ c.toNat ≤ 90)) :
    Char.toLower c = c := by
  simp only [Char.toLower]
  rw [if_neg]
  exact fun hc => h ⟨hc.1, hc.2⟩

theorem toLower_hi (c : Char) (h : 65 ≤ c.toNat ∧ c.toNat ≤ 90) :
    Char.toLower c = Char.ofNat (c.toNat + 32) := by
  simp only [Char.toLower]
  rw [if_pos]
  exact ⟨h.1, h.2⟩

theorem toNat_ofNat_valid {n : Nat} (h : n < 55296) : (Char.ofNat n).toNat = n := by
  rw [Char.ofNat, dif_pos (Or.inl h)]
  rfl

theorem toLower_toLower (c : Char) :
    Char.toLower (Char.toLower c) = Char.toLower c := by
  by_cases h : 65 ≤ c.toNat ∧ c.toNat ≤ 90
  · rw [toLower_hi c h]
    have hval : (Char.ofNat (c.toNat + 32)).toNat = c.toNat + 32 :=
      toNat_ofNat_valid (by omega)
    rw [toLower_lo _ (by rw [hval]; omega)]
  · rw [toLower_lo c h]
    exact toLower_lo c h

theorem toLower_isWhitespace (c : Char) :
    (Char.toLower c).isWhitespace = c.isWhitespace := by
  by_cases h : 65 ≤ c.toNat ∧ c.toNat ≤ 90
  · rw [toLower_hi c h]
    have hval : (Char.ofNat (c.toNat + 32)).toNat = c.toNat + 32 :=
      toNat_ofNat_valid (by omega)
    rw [isWhitespace_false_of_65_le (by omega : 65 ≤ c.toNat),
        isWhitespace_false_of_65_le (by rw [hval]; omega)]
  · rw [toLower_lo c h]

theorem dropWhile_eq_self_of_forall {p : Char → Bool} {l : Str}
    (h : ∀ c ∈ l, p c = false) : l.dropWhile p = l := by
  cases l with
  | nil => rfl
  | cons a t =>
    rw [List.dropWhile_cons, if_neg]
    simp [h a (List.mem_cons_self a t)]

theorem pyStrip_eq_self {l : Str} (h : ∀ c ∈ l, c.isWhitespace = false) :
    pyStrip l = l := by
  unfold pyStrip
  rw [dropWhile_eq_self_of_forall h,
      dropWhile_eq_self_of_forall (fun c hc => h c (List.mem_reverse.mp hc)),
      List.reverse_reverse]

theorem head?_dropWhile {p : Char → Bool} :
    ∀ {l : Str} {c : Char}, (l.dropWhile p).head? = some c → p c = false := by
  intro l
  induction l with
  | nil => intro c h; simp [List.dropWhile] at h
  | cons a t ih =>
    intro c h
    rw [List.dropWhile_cons] at h
    by_cases hp : p a = true
    · rw [if_pos hp] at h
      exact ih h
    · rw [if_neg hp] at h
      have : a = c := by simpa using h
      subst this
      exact Bool.not_eq_true _ |>.mp hp

theorem getLast?_dropWhile {p : Char → Bool} {l : Str} {c : Char}
    (h : (l.dropWhile p).getLast? = some c) : l.getLast? = some c := by
  obtain ⟨t, ht⟩ := List.dropWhile_suffix p (l := l)
  rw [← ht, List.getLast?_append, h]
  rfl

theorem pyStrip_head? {l : Str} {c : Char} (h : (pyStrip l).head? = some c) :
    c.isWhitespace = false := by
  unfold pyStrip at h
  rw [List.head?_reverse] at h
  have h2 := getLast?_dropWhile h
  rw [List.getLast?_reverse] at h2
  exact head?_dropWhile h2

theorem pyStrip_getLast? {l : Str} {c : Char} (h : (pyStrip l).getLast? = some c) :
    c.isWhitespace = false := by
  unfold pyStrip at h
  rw [List.getLast?_reverse] at h
  exact head?_dropWhile h

theorem pyStrip_eq_self_of_ends {l : Str}
    (hh : ∀ c, l.head? = some c → c.isWhitespace = false)
    (hl : ∀ c, l.getLast? = some c → c.isWhitespace = false) : pyStrip l = l := by
  unfold pyStrip
  have h1 : l.dropWhile Char.isWhitespace = l := by
    cases l with
    | nil => rfl
    | cons a t =>
      rw [List.dropWhile_cons, if_neg]
      simp [hh a rfl]
  rw [h1]
  have h2 : l.reverse.dropWhile Char.isWhitespace = l.reverse := by
    cases hr : l.reverse with
    | nil => rfl
    | cons a t =>
      rw [List.dropWhile_cons, if_neg]
      have ha : l.getLast? = some a := by
        rw [← List.head?_reverse, hr]
        rfl
      simp [hl a ha]
  rw [h2, List.reverse_reverse]

theorem pyStrip_idem (l : Str) : pyStrip (pyStrip l) = pyStrip l :=
  pyStrip_eq_self_of_ends (fun _ h => pyStrip_head? h) (fun _ h => pyStrip_getLast? h)

theorem pyStrip_map_toLower (l : Str) :
    pyStrip (l.map Char.toLower) = (pyStrip l).map Char.toLower := by
  have hws : (Char.isWhitespace ∘ Char.toLower) = Char.isWhitespace :=
    funext toLower_isWhitespace
  unfold pyStrip
  rw [List.dropWhile_map, hws, ← List.map_reverse, List.dropWhile_map, hws,
      ← List.map_reverse]

theorem map_toLower_idem (l : Str) :
    (l.map Char.toLower).map Char.toLower = l.map Char.toLower := by
  rw [List.map_map]
  exact List.map_congr_left (fun a _ => toLower_toLower a)

theorem digitsOf_forall {l : Str} : ∀ c ∈ digitsOf l, c.isDigit = true :=
  fun _ hc => List.of_mem_filter hc

theorem digitsOf_of_forall {l : Str} (h : ∀ c ∈ l, c.isDigit = true) :
    digitsOf l = l := List.filter_eq_self.mpr h

theorem digitsOf_cons_plus (l : Str) : digitsOf ('+' :: l) = digitsOf l :=
  List.filter_cons_of_neg (by decide)

/-! ## Normalizer theorems (claims C7 and C9) -/

theorem normalizePhone_cases (s : Str) :
    normalizePhone s = s ∨
    ∃ d, d ≠ [] ∧ (∀ c ∈ d, c.isDigit = true) ∧ normalizePhone s = '+' :: d := by
  unfold normalizePhone
  split_ifs with h1 h2 h3 h4 h5 h6
  · exact Or.inl rfl
  · exact Or.inl rfl
  · exact Or.inr ⟨digitsOf (pyStrip s), h2, digitsOf_forall, rfl⟩
  · refine Or.inr ⟨'1' :: digitsOf (pyStrip s), by simp, ?_, rfl⟩
    intro c hc
    rcases List.mem_cons.mp hc with rfl | hc
    · decide
    · exact digitsOf_forall c hc
  · exact Or.inr ⟨digitsOf (pyStrip s), h2, digitsOf_forall, rfl⟩
  · exact Or.inr ⟨digitsOf (pyStrip s), h2, digitsOf_forall, rfl⟩
  · exact Or.inl rfl

theorem normalizePhone_idem (s : Str) :
    normalizePhone (normalizePhone s) = normalizePhone s := by
  rcases normalizePhone_cases s with h | ⟨d, hne, hd, h⟩
  · rw [h]
    exact h
  · rw [h]
    have hstrip : pyStrip ('+' :: d) = '+' :: d := by
      refine pyStrip_eq_self ?_
      intro c hc
      rcases List.mem_cons.mp hc with rfl | hc
      · decide
      · exact whitespace_false_of_isDigit (hd c hc)
    have hdig : digitsOf ('+' :: d) = d := by
      rw [digitsOf_cons_plus, digitsOf_of_forall hd]
    unfold normalizePhone
    rw [hstrip, hdig]
    simp [hne]

theorem normalizeEmail_idem (s : Str) :
    normalizeEmail (normalizeEmail s) = normalizeEmail s := by
  by_cases h1 : s = []
  · subst h1
    rfl
  by_cases h2 : '@' ∈ (pyStrip s).map Char.toLower
  · have hfs : normalizeEmail s = (pyStrip s).map Char.toLower := by
      unfold normalizeEmail
      rw [if_neg h1, if_pos h2]
    rw [hfs]
    have hkey2 : (pyStrip ((pyStrip s).map Char.toLower)).map Char.toLower =
        (pyStrip s).map Char.toLower := by
      rw [pyStrip_map_toLower, pyStrip_idem, map_toLower_idem]
    have hne : (pyStrip s).map Char.toLower ≠ [] := List.ne_nil_of_mem h2
    unfold normalizeEmail
    rw [if_neg hne, hkey2, if_pos h2]
  · have hfs : normalizeEmail s = s := by
      unfold normalizeEmail
      rw [if_neg h1, if_neg h2]
    rw [hfs]
    exact hfs

/-- C9: `normalize_phone` and `normalize_email` are idempotent on every
input string, not only on already-canonical ones. -/
theorem c9_normalizers_idempotent :
    ∀ s : Str, normalizePhone (normalizePhone s) = normalizePhone s ∧
      normalizeEmail (normalizeEmail s) = normalizeEmail s :=
  fun s => ⟨normalizePhone_idem s, normalizeEmail_idem s⟩

/-- C7: `normalize_phone` follows the stated case analysis on the digit
count of the stripped input (no digits: unchanged; leading `+`: `+` plus
the digits; exactly 10 digits: `+1` plus the digits; 11 digits starting
with `1`, or any other count ≥ 7: `+` plus the digits; fewer than 7:
unchanged), and in particular maps every 10-digit numeric string `d` to
`"+1" ++ d`. -/
theorem c7_normalize_phone_case_analysis :
    (∀ s : Str, normalizePhone s = normalizePhoneSpecCases s) ∧
    (∀ d : Str, d.length = 10 → (∀ c ∈ d, c.isDigit = true) →
      normalizePhone d = '+' :: '1' :: d) := by
  constructor
  · intro s
    by_cases h : s = []
    · subst h
      rfl
    · unfold normalizePhone normalizePhoneSpecCases
      rw [if_neg h]
  · intro d h10 hd
    have hne : d ≠ [] := by
      intro he
      subst he
      simp at h10
    have hstrip : pyStrip d = d :=
      pyStrip_eq_self (fun c hc => whitespace_false_of_isDigit (hd c hc))
    have hdig : digitsOf d = d := digitsOf_of_forall hd
    have hplus : ¬(d.head? = some '+') := by
      cases d with
      | nil => exact absurd rfl hne
      | cons a t =>
        intro hh
        have ha : a = '+' := by simpa using hh
        exact ne_plus_of_isDigit (hd a (List.mem_cons_self a t)) ha
    unfold normalizePhone
    rw [hstrip, hdig, if_neg hne, if_neg hne, if_neg hplus, if_pos h10]

/-- Witness for C7 at the spec scenario input `"4155551234"`. -/
theorem c7_witness :
    normalizePhone "4155551234".toList = '+' :: '1' :: "4155551234".toList :=
  c7_normalize_phone_case_analysis.2 "4155551234".toList (by decide) (by decide)

/-! ## Identity-resolution theorems (claim C3) -/

theorem find?_congr {α : Type} {p q : α → Bool} (h : ∀ a, p a = q a) :
    ∀ l : List α, l.find? p = l.find? q := by
  intro l
  induction l with
  | nil => rfl
  | cons a t ih => simp [List.find?, h a, ih]

theorem fuzzyLastTenMatch_eq_true {v cmv : Str} (hlen : 10 ≤ (digitsOf v).length) :
    fuzzyLastTenMatch v cmv = true ↔
      10 ≤ (digitsOf cmv).length ∧ lastTen (digitsOf cmv) = lastTen (digitsOf v) := by
  unfold fuzzyLastTenMatch lastTenOpt
  rw [if_pos hlen]
  by_cases hc : 10 ≤ (digitsOf cmv).length
  · rw [if_pos hc]
    simp [eq_comm, hc]
  · rw [if_neg hc]
    simp [hc]

theorem fuzzyLastTenMatch_eq_false {v cmv : Str}
    (hlen : ¬10 ≤ (digitsOf v).length) : fuzzyLastTenMatch v cmv = false := by
  unfold fuzzyLastTenMatch lastTenOpt
  rw [if_neg hlen]

theorem resolveHandleToPerson_of_exact {cms : List ContactMethod} {v t : Str}
    {cm : ContactMethod}
    (h : cms.find? (fun cm => cm.value_normalized = v) = some cm) :
    resolveHandleToPerson cms v t = some cm.person_id := by
  unfold resolveHandleToPerson
  rw [h]

theorem resolveHandleToPerson_of_noexact {cms : List ContactMethod} {v t : Str}
    (h : cms.find? (fun cm => cm.value_normalized = v) = none) :
    resolveHandleToPerson cms v t =
      (if t = "phone".toList then
        if 10 ≤ (digitsOf v).length then
          match cms.find? (fun cm => cm.type = "phone".toList ∧
              10 ≤ (digitsOf cm.value_normalized).length ∧
              lastTen (digitsOf cm.value_normalized) =
                lastTen (digitsOf v)) with
          | some cm => some cm.person_id
          | none => none
        else none
      else none) := by
  unfold resolveHandleToPerson
  rw [h]

theorem resolveHandleToPersonSpec_of_exact {cms : List ContactMethod} {v t : Str}
    {cm : ContactMethod}
    (h : cms.find? (fun cm => cm.value_normalized = v) = some cm) :
    resolveHandleToPersonSpec cms v t = some cm.person_id := by
  unfold resolveHandleToPersonSpec
  rw [h]

theorem resolveHandleToPersonSpec_of_noexact {cms : List ContactMethod} {v t : Str}
    (h : cms.find? (fun cm => cm.value_normalized = v) = none) :
    resolveHandleToPersonSpec cms v t =
      (if t = "phone".toList then
        (cms.find? (fun cm => cm.type = "phone".toList ∧
          fuzzyLastTenMatch v cm.value_normalized = true)).map
          (fun cm => cm.person_id)
      else none) := by
  unfold resolveHandleToPersonSpec
  rw [h]

/-- C3: `resolve_handle_to_person` first tries an exact match of the
normalized value against all contact methods (first match of any type
wins); only when that fails and the type is `phone` does it compare last
10 digits against every phone-type contact method, returning the first
match in iteration order; otherwise it returns `None`. -/
theorem c3_resolve_strategies :
    ∀ (cms : List ContactMethod) (v t : Str),
      resolveHandleToPerson cms v t = resolveHandleToPersonSpec cms v t := by
  intro cms v t
  cases hfind : cms.find? (fun cm => cm.value_normalized = v) with
  | some cm =>
    rw [resolveHandleToPerson_of_exact hfind, resolveHandleToPersonSpec_of_exact hfind]
  | none =>
    rw [resolveHandleToPerson_of_noexact hfind, resolveHandleToPersonSpec_of_noexact hfind]
    by_cases ht : t = "phone".toList
    · rw [if_pos ht, if_pos ht]
      by_cases hlen : 10 ≤ (digitsOf v).length
      · rw [if_pos hlen]
        have hpred : ∀ cm : ContactMethod,
            (decide (cm.type = "phone".toList ∧
              10 ≤ (digitsOf cm.value_normalized).length ∧
              lastTen (digitsOf cm.value_normalized) = lastTen (digitsOf v))) =
            (decide (cm.type = "phone".toList ∧
              fuzzyLastTenMatch v cm.value_normalized = true)) := by
          intro cm
          apply decide_eq_decide.mpr
          rw [fuzzyLastTenMatch_eq_true hlen]
        rw [find?_congr hpred cms]
        cases cms.find? (fun cm => cm.type = "phone".toList ∧
          fuzzyLastTenMatch v cm.value_normalized = true) <;> rfl
      · rw [if_neg hlen]
        have hnone : cms.find? (fun cm => cm.type = "phone".toList ∧
            fuzzyLastTenMatch v cm.value_normalized = true) = none := by
          rw [List.find?_eq_none]
          intro cm _ hx
          have := of_decide_eq_true hx
          rw [fuzzyLastTenMatch_eq_false hlen] at this
          exact absurd this.2 (by decide)
        rw [hnone]
        rfl
    · rw [if_neg ht, if_neg ht]

/-! ## Loader theorems (claim C2) -/

/-- The row written by one upsert of `load_handles`. -/
def upsertedRow (tbl : List DimHandleRow) (h : Handle) (now : Nat) : DimHandleRow :=
  { handle_id := h.rowid
    value_raw := h.value_raw
    value_normalized := h.value_normalized
    handle_type := h.handle_type
    person_id := (findHandle tbl h.rowid).bind (fun r => r.person_id)
    created_at := match findHandle tbl h.rowid with
      | some r => r.created_at
      | none => now
    updated_at := now }

theorem loadHandlesStep_eq (tbl : List DimHandleRow) (h : Handle) (now : Nat) :
    loadHandlesStep tbl h now =
      tbl.filter (fun r => ¬(r.handle_id = h.rowid)) ++ [upsertedRow tbl h now] := rfl

theorem find?_filter_ne_none (tbl : List DimHandleRow) (hid : Nat) :
    (tbl.filter (fun r => ¬(r.handle_id = hid))).find?
      (fun r => r.handle_id = hid) = none := by
  rw [List.find?_eq_none]
  intro x hx
  simpa using List.of_mem_filter hx

theorem findHandle_loadHandlesStep_self (tbl : List DimHandleRow) (h : Handle)
    (now : Nat) :
    findHandle (loadHandlesStep tbl h now) h.rowid = some (upsertedRow tbl h now) := by
  rw [loadHandlesStep_eq]
  unfold findHandle
  rw [List.find?_append, find?_filter_ne_none]
  rw [List.find?_cons_of_pos _ (by simp [upsertedRow])]
  rfl

theorem countHandleRows_loadHandlesStep_self (tbl : List DimHandleRow) (h : Handle)
    (now : Nat) : countHandleRows (loadHandlesStep tbl h now) h.rowid = 1 := by
  rw [loadHandlesStep_eq]
  unfold countHandleRows
  rw [List.filter_append]
  have h1 : (tbl.filter (fun r => ¬(r.handle_id = h.rowid))).filter
      (fun r => r.handle_id = h.rowid) = [] := by
    rw [List.filter_eq_nil_iff]
    intro a ha
    simpa using List.of_mem_filter ha
  rw [h1]
  simp [upsertedRow]

theorem loadHandles_single (tbl : List DimHandleRow) (h : Handle) (now : Nat) :
    (loadHandles tbl [h] now).1 = loadHandlesStep tbl h now := rfl

/-- C2: upserting a handle whose native id already exists with a resolved
person link overwrites the raw, normalized and type columns but preserves
the person link and the original `created_at`; moreover `load_handles`
applied twice with the same record leaves exactly one stored row for that
id, with the `created_at` of the first application preserved. -/
theorem c2_load_handles_upsert_preserves :
    ∀ (tbl : List DimHandleRow) (h : Handle) (r : DimHandleRow) (p : Str) (t2 : Nat),
      findHandle tbl h.rowid = some r → r.person_id = some p →
      (∃ row, findHandle (loadHandles tbl [h] t2).1 h.rowid = some row ∧
        row.value_raw = h.value_raw ∧ row.value_normalized = h.value_normalized ∧
        row.handle_type = h.handle_type ∧ row.person_id = some p ∧
        row.created_at = r.created_at) ∧
      (∀ (tbl₀ : List DimHandleRow) (t0 t1 : Nat),
        countHandleRows (loadHandles (loadHandles tbl₀ [h] t0).1 [h] t1).1 h.rowid = 1 ∧
        ∃ row0 row1,
          findHandle (loadHandles tbl₀ [h] t0).1 h.rowid = some row0 ∧
          findHandle (loadHandles (loadHandles tbl₀ [h] t0).1 [h] t1).1 h.rowid =
            some row1 ∧
          row1.created_at = row0.created_at) := by
  intro tbl h r p t2 hfind hres
  constructor
  · refine ⟨upsertedRow tbl h t2, ?_, rfl, rfl, rfl, ?_, ?_⟩
    · rw [loadHandles_single]
      exact findHandle_loadHandlesStep_self tbl h t2
    · show (findHandle tbl h.rowid).bind (fun r => r.person_id) = some p
      rw [hfind]
      exact hres
    · show (match findHandle tbl h.rowid with
        | some r => r.created_at
        | none => t2) = r.created_at
      rw [hfind]
  · intro tbl₀ t0 t1
    refine ⟨?_, upsertedRow tbl₀ h t0,
      upsertedRow (loadHandlesStep tbl₀ h t0) h t1, ?_, ?_, ?_⟩
    · rw [loadHandles_single, loadHandles_single]
      exact countHandleRows_loadHandlesStep_self _ h t1
    · rw [loadHandles_single]
      exact findHandle_loadHandlesStep_self tbl₀ h t0
    · rw [loadHandles_single, loadHandles_single]
      exact findHandle_loadHandlesStep_self _ h t1
    · show (match findHandle (loadHandlesStep tbl₀ h t0) h.rowid with
        | some r => r.created_at
        | none => t1) = (upsertedRow tbl₀ h t0).created_at
      rw [findHandle_loadHandlesStep_self tbl₀ h t0]

/-- Witness for C2: a stored handle row with a resolved person link and an
old creation timestamp survives a re-upsert unchanged in those columns. -/
theorem c2_witness :
    let r0 : DimHandleRow :=
      { handle_id := 7, value_raw := "(415) 555-1234".toList,
        value_normalized := "+14155551234".toList,
        handle_type := "phone".toList, person_id := some "person-1".toList,
        created_at := 11, updated_at := 11 }
    let h0 : Handle :=
      { rowid := 7, value_raw := "415 555 1234".toList,
        value_normalized := "+14155551234".toList,
        handle_type := "phone".toList }
    (∃ row, findHandle (loadHandles [r0] [h0] 99).1 7 = some row ∧
      row.value_raw = "415 555 1234".toList ∧
      row.value_normalized = "+14155551234".toList ∧
      row.handle_type = "phone".toList ∧ row.person_id = some "person-1".toList ∧
      row.created_at = 11) ∧
    (∀ (tbl₀ : List DimHandleRow) (t0 t1 : Nat),
      countHandleRows (loadHandles (loadHandles tbl₀ [h0] t0).1 [h0] t1).1 7 = 1 ∧
      ∃ row0 row1,
        findHandle (loadHandles tbl₀ [h0] t0).1 7 = some row0 ∧
        findHandle (loadHandles (loadHandles tbl₀ [h0] t0).1 [h0] t1).1 7 =
          some row1 ∧
        row1.created_at = row0.created_at) := by
  intro r0 h0
  exact c2_load_handles_upsert_preserves [r0] h0 r0 "person-1".toList 99
    (by decide) (by decide)

/-! ## Identity-resolution state theorems (claim C8) -/

theorem resolveHandleToPerson_mem {cms : List ContactMethod} {v t p : Str}
    (h : resolveHandleToPerson cms v t = some p) : ∃ cm ∈ cms, cm.person_id = p := by
  cases hfind : cms.find? (fun cm => cm.value_normalized = v) with
  | some cm =>
    rw [resolveHandleToPerson_of_exact hfind] at h
    exact ⟨cm, List.mem_of_find?_eq_some hfind, Option.some.inj h⟩
  | none =>
    rw [resolveHandleToPerson_of_noexact hfind] at h
    by_cases ht : t = "phone".toList
    · rw [if_pos ht] at h
      by_cases hlen : 10 ≤ (digitsOf v).length
      · rw [if_pos hlen] at h
        cases hf2 : cms.find? (fun cm => cm.type = "phone".toList ∧
            10 ≤ (digitsOf cm.value_normalized).length ∧
            lastTen (digitsOf cm.value_normalized) = lastTen (digitsOf v)) with
        | some cm =>
          rw [hf2] at h
          exact ⟨cm, List.mem_of_find?_eq_some hf2, Option.some.inj h⟩
        | none =>
          rw [hf2] at h
          exact Option.noConfusion h
      · rw [if_neg hlen] at h
        exact Option.noConfusion h
    · rw [if_neg ht] at h
      exact Option.noConfusion h

theorem handleIds_link (tbl : List DimHandleRow) (hid : Nat) (pid : Str) (now : Nat) :
    handleIds (linkHandleToPerson tbl hid pid now) = handleIds tbl := by
  unfold handleIds linkHandleToPerson
  rw [List.map_map]
  refine List.map_congr_left ?_
  intro r _
  by_cases h : r.handle_id = hid <;> simp [Function.comp, h]

/-- Structural description of one resolution step: every field but
`dimHandle`, `dimPerson` and `nextId` is untouched, `dimPerson` only
grows, and `dimHandle` is the old table with some person id linked into
row `hid`; that id exists in the new `dim_person` table whenever every
contact method refers to an existing person. -/
theorem resolveOneHandle_spec (db : AnalysisDb) (hid : Nat) (v t : Str) (now : Nat) :
    (resolveOneHandle db hid v t now).factMessage = db.factMessage ∧
    (resolveOneHandle db hid v t now).dimContactMethod = db.dimContactMethod ∧
    (resolveOneHandle db hid v t now).lastMessageDate = db.lastMessageDate ∧
    (resolveOneHandle db hid v t now).lastSync = db.lastSync ∧
    (∀ q ∈ personIds db.dimPerson, q ∈ personIds (resolveOneHandle db hid v t now).dimPerson) ∧
    ∃ pid, (resolveOneHandle db hid v t now).dimHandle =
        linkHandleToPerson db.dimHandle hid pid now ∧
      ((∀ cm ∈ db.dimContactMethod, cm.person_id ∈ personIds db.dimPerson) →
        pid ∈ personIds (resolveOneHandle db hid v t now).dimPerson) := by
  unfold resolveOneHandle
  cases hres : resolveHandleToPerson db.dimContactMethod v t with
  | some p =>
    simp only []
    by_cases hp : p = []
    · rw [if_pos hp]
      refine ⟨rfl, rfl, rfl, rfl, ?_, freshPersonId db.nextId, rfl, ?_⟩
      · intro q hq
        simp only [createUnknownPerson, personIds, List.map_append] at *
        exact List.mem_append.mpr (Or.inl hq)
      · intro _
        simp [createUnknownPerson, personIds]
    · rw [if_neg hp]
      refine ⟨rfl, rfl, rfl, rfl, fun q hq => hq, p, rfl, ?_⟩
      intro hcm
      obtain ⟨cm, hmem, hpid⟩ := resolveHandleToPerson_mem hres
      exact hpid ▸ hcm cm hmem
  | none =>
    refine ⟨rfl, rfl, rfl, rfl, ?_, freshPersonId db.nextId, rfl, ?_⟩
    · intro q hq
      simp only [createUnknownPerson, personIds, List.map_append] at *
      exact List.mem_append.mpr (Or.inl hq)
    · intro _
      simp [createUnknownPerson, personIds]

theorem resolveAllGo_person_some (now : Nat) :
    ∀ (items : List (Nat × Str × Str)) (db : AnalysisDb) (r : DimHandleRow),
      r ∈ (resolveAllGo now db items).dimHandle →
      r.person_id.isSome = true ∨
        (r ∈ db.dimHandle ∧ r.handle_id ∉ items.map (fun x => x.1)) := by
  intro items
  induction items with
  | nil =>
    intro db r hr
    exact Or.inr ⟨hr, by simp⟩
  | cons it ts ih =>
    intro db r hr
    obtain ⟨hid, v, t⟩ := it
    rcases ih (resolveOneHandle db hid v t now) r hr with hs | ⟨hmem, hnot⟩
    · exact Or.inl hs
    · obtain ⟨-, -, -, -, -, pid, hdim, -⟩ := resolveOneHandle_spec db hid v t now
      rw [hdim] at hmem
      unfold linkHandleToPerson at hmem
      obtain ⟨r0, hr0, hr0e⟩ := List.mem_map.mp hmem
      by_cases hcase : r0.handle_id = hid
      · rw [if_pos hcase] at hr0e
        left
        rw [← hr0e]
        rfl
      · rw [if_neg hcase] at hr0e
        subst hr0e
        right
        refine ⟨hr0, ?_⟩
        simp only [List.map_cons, List.mem_cons]
        rintro (h1 | h1)
        · exact hcase h1
        · exact hnot h1

theorem resolveAllHandles_all_some (db : AnalysisDb) (now : Nat) :
    ∀ r ∈ (resolveAllHandles db now).1.dimHandle, r.person_id.isSome = true := by
  intro r hr
  unfold resolveAllHandles at hr
  rcases resolveAllGo_person_some now _ db r hr with hs | ⟨hmem, hnot⟩
  · exact hs
  · rcases ho : r.person_id with _ | p
    · exfalso
      apply hnot
      have hfil : r ∈ db.dimHandle.filter (fun x => x.person_id = none) :=
        List.mem_filter.mpr ⟨hmem, by simp [ho]⟩
      have := List.mem_map_of_mem
        (fun x : DimHandleRow => (x.handle_id, x.value_normalized, x.handle_type)) hfil
      simpa using List.mem_map_of_mem (fun x : Nat × Str × Str => x.1) this
    · simp [ho]

/-- C8: `resolve_all_handles` is idempotent — it only processes handles
with no person link and links each processed handle, so a second
invocation with no new handles processes 0 and leaves the database
unchanged. -/
theorem c8_resolve_all_idempotent :
    ∀ (db : AnalysisDb) (t1 t2 : Nat),
      resolveAllHandles (resolveAllHandles db t1).1 t2 =
        ((resolveAllHandles db t1).1, 0) := by
  intro db t1 t2
  have hall := resolveAllHandles_all_some db t1
  set X := (resolveAllHandles db t1).1 with hX
  have hfil : X.dimHandle.filter (fun r => r.person_id = none) = [] := by
    rw [List.filter_eq_nil_iff]
    intro r hr
    have hs := hall r hr
    rcases ho : r.person_id with _ | p
    · rw [ho] at hs
      exact absurd hs (by decide)
    · simp [ho]
  unfold resolveAllHandles
  rw [hfil]
  rfl

/-! ## `load_messages` theorems -/

theorem loadMessagesGo_ids_mono (validIds : List Nat) (now : Nat) :
    ∀ (msgs : List Message) (fact : List FactMessageRow) (n x : Nat),
      x ∈ factIds fact → x ∈ factIds (loadMessagesGo validIds now fact n msgs).1 := by
  intro msgs
  induction msgs with
  | nil => intro fact n x hx; exact hx
  | cons a ms ih =>
    intro fact n x hx
    simp only [loadMessagesGo]
    split
    · exact ih fact n x hx
    · refine ih _ _ x ?_
      unfold factIds at hx ⊢
      rw [List.map_append]
      exact List.mem_append.mpr (Or.inl hx)

theorem loadMessagesGo_mem (validIds : List Nat) (now : Nat) :
    ∀ (msgs : List Message) (fact : List FactMessageRow) (n : Nat) (m : Message),
      m ∈ msgs → m.rowid ∈ factIds (loadMessagesGo validIds now fact n msgs).1 := by
  intro msgs
  induction msgs with
  | nil => intro fact n m hm; exact absurd hm (List.not_mem_nil m)
  | cons a ms ih =>
    intro fact n m hm
    rcases List.mem_cons.mp hm with rfl | hm2
    · simp only [loadMessagesGo]
      split
      · next hdup =>
        apply loadMessagesGo_ids_mono
        obtain ⟨r, hrmem, hre⟩ := List.any_eq_true.mp hdup
        have hid : r.message_id = m.rowid := of_decide_eq_true hre
        exact hid ▸ List.mem_map_of_mem _ hrmem
      · apply loadMessagesGo_ids_mono
        unfold factIds
        rw [List.map_append]
        exact List.mem_append.mpr (Or.inr (by simp))
    · simp only [loadMessagesGo]
      split
      · exact ih fact n m hm2
      · exact ih _ _ m hm2

theorem loadMessagesGo_all_present (validIds : List Nat) (now : Nat) :
    ∀ (msgs : List Message) (fact : List FactMessageRow) (n : Nat),
      (∀ m ∈ msgs, m.rowid ∈ factIds fact) →
      loadMessagesGo validIds now fact n msgs = (fact, n) := by
  intro msgs
  induction msgs with
  | nil => intro fact n _; rfl
  | cons a ms ih =>
    intro fact n hall
    have hdup : fact.any (fun r => r.message_id = a.rowid) = true := by
      obtain ⟨r, hrm, hre⟩ := List.mem_map.mp (hall a (List.mem_cons_self a ms))
      exact List.any_eq_true.mpr ⟨r, hrm, by simp [hre]⟩
    simp only [loadMessagesGo]
    rw [if_pos hdup]
    exact ih fact n (fun m hm => hall m (List.mem_cons_of_mem a hm))

theorem loadMessages_mem (tbl : List DimHandleRow) (fact : List FactMessageRow)
    (msgs : List Message) (now : Nat) (m : Message) (hm : m ∈ msgs) :
    m.rowid ∈ factIds (loadMessages tbl fact msgs now).1 :=
  loadMessagesGo_mem _ now msgs fact 0 m hm

theorem loadMessages_all_present (tbl : List DimHandleRow)
    (fact : List FactMessageRow) (msgs : List Message) (now : Nat)
    (h : ∀ m ∈ msgs, m.rowid ∈ factIds fact) :
    loadMessages tbl fact msgs now = (fact, 0) :=
  loadMessagesGo_all_present _ now msgs fact 0 h

/-! ## Extraction theorems -/

theorem extractMessages_mem_elim {src : ChatDb} {sd : Option Nat} {m : Message}
    (h : m ∈ extractMessages src sd) :
    ∃ x ∈ src.messages, x.date ≠ 0 ∧ m = convMsg x ∧
      (∀ B, sd = some B → secToAppleNs B < x.date) := by
  unfold extractMessages at h
  cases sd with
  | none =>
    obtain ⟨x, hx, hxe⟩ := List.mem_filterMap.mp h
    by_cases hd : x.date = 0
    · rw [if_pos hd] at hxe
      exact absurd hxe (by simp)
    · rw [if_neg hd] at hxe
      exact ⟨x, hx, hd, (Option.some.inj hxe).symm, fun B hB => by cases hB⟩
  | some B0 =>
    obtain ⟨x, hx, hxe⟩ := List.mem_filterMap.mp h
    obtain ⟨hxs, hxf⟩ := List.mem_filter.mp hx
    by_cases hd : x.date = 0
    · rw [if_pos hd] at hxe
      exact absurd hxe (by simp)
    · rw [if_neg hd] at hxe
      refine ⟨x, hxs, hd, (Option.some.inj hxe).symm, ?_⟩
      intro B hB
      cases hB
      exact of_decide_eq_true hxf

theorem extractMessages_mem_intro {src : ChatDb} {x : SrcMessage}
    (hx : x ∈ src.messages) (hd : x.date ≠ 0) (sd : Option Nat)
    (hbound : ∀ B, sd = some B → secToAppleNs B < x.date) :
    convMsg x ∈ extractMessages src sd := by
  unfold extractMessages
  cases sd with
  | none => exact List.mem_filterMap.mpr ⟨x, hx, by rw [if_neg hd]⟩
  | some B0 =>
    refine List.mem_filterMap.mpr ⟨x, ?_, by rw [if_neg hd]⟩
    exact List.mem_filter.mpr ⟨hx, by simpa using hbound B0 rfl⟩

/-! ## Timestamp arithmetic -/

theorem nsToSec_ge {d T : Nat} (h : secToAppleNs T < d) : T ≤ nsToSec d := by
  unfold secToAppleNs at h
  unfold nsToSec
  have h1 : T - appleEpochOffset ≤ d / 1000000000 := by
    rw [Nat.le_div_iff_mul_le (by norm_num)]
    omega
  omega

theorem secToAppleNs_mono {a b : Nat} (h : a ≤ b) :
    secToAppleNs a ≤ secToAppleNs b := by
  unfold secToAppleNs
  exact Nat.mul_le_mul_right _ (Nat.sub_le_sub_right h _)

theorem foldl_max_le_init :
    ∀ (l : List Message) (a : Nat),
      a ≤ l.foldl (fun acc m => Nat.max acc m.date_utc) a := by
  intro l
  induction l with
  | nil => intro a; exact Nat.le_refl a
  | cons m ms ih =>
    intro a
    exact Nat.le_trans (Nat.le_max_left a m.date_utc) (ih (Nat.max a m.date_utc))

theorem maxDateUtc_ge {msgs : List Message} {m : Message} (hm : m ∈ msgs) :
    m.date_utc ≤ maxDateUtc msgs := by
  unfold maxDateUtc
  suffices hgen : ∀ (l : List Message) (a : Nat), m ∈ l →
      m.date_utc ≤ l.foldl (fun acc x => Nat.max acc x.date_utc) a from
    hgen msgs 0 hm
  intro l
  induction l with
  | nil => intro a hmem; exact absurd hmem (List.not_mem_nil m)
  | cons x xs ih =>
    intro a hmem
    rcases List.mem_cons.mp hmem with rfl | hmem2
    · exact Nat.le_trans (Nat.le_max_right a m.date_utc)
        (foldl_max_le_init xs (Nat.max a m.date_utc))
    · exact ih (Nat.max a x.date_utc) hmem2

/-! ## Pipeline-state preservation lemmas -/

theorem resolveAllGo_preserves (now : Nat) :
    ∀ (items : List (Nat × Str × Str)) (db : AnalysisDb),
      (resolveAllGo now db items).factMessage = db.factMessage ∧
      (resolveAllGo now db items).dimContactMethod = db.dimContactMethod ∧
      (resolveAllGo now db items).lastMessageDate = db.lastMessageDate ∧
      (resolveAllGo now db items).lastSync = db.lastSync ∧
      handleIds (resolveAllGo now db items).dimHandle = handleIds db.dimHandle ∧
      (∀ q ∈ personIds db.dimPerson, q ∈ personIds (resolveAllGo now db items).dimPerson) := by
  intro items
  induction items with
  | nil => intro db; exact ⟨rfl, rfl, rfl, rfl, rfl, fun _ hq => hq⟩
  | cons it ts ih =>
    intro db
    obtain ⟨hid, v, t⟩ := it
    obtain ⟨h1, h2, h3, h4, h5, pid, hdim, -⟩ := resolveOneHandle_spec db hid v t now
    obtain ⟨g1, g2, g3, g4, g5, g6⟩ := ih (resolveOneHandle db hid v t now)
    exact ⟨g1.trans h1, g2.trans h2, g3.trans h3, g4.trans h4,
      g5.trans (by rw [hdim, handleIds_link]),
      fun q hq => g6 q (h5 q hq)⟩

theorem resolveAllHandles_preserves (db : AnalysisDb) (now : Nat) :
    (resolveAllHandles db now).1.factMessage = db.factMessage ∧
    (resolveAllHandles db now).1.lastMessageDate = db.lastMessageDate ∧
    handleIds (resolveAllHandles db now).1.dimHandle = handleIds db.dimHandle := by
  obtain ⟨h1, -, h3, -, h5, -⟩ := resolveAllGo_preserves now
    ((db.dimHandle.filter (fun r => r.person_id = none)).map
      (fun r => (r.handle_id, r.value_normalized, r.handle_type))) db
  exact ⟨h1, h3, h5⟩

theorem linkMessagesToPersons_factIds (db : AnalysisDb) :
    factIds (linkMessagesToPersons db).1.factMessage = factIds db.factMessage := by
  unfold linkMessagesToPersons factIds
  simp only []
  rw [List.map_map]
  refine List.map_congr_left ?_
  intro m _
  by_cases h : m.handle_id.isSome = true ∧ m.person_id = none <;> simp [Function.comp, h]

theorem linkMessagesToPersons_fields (db : AnalysisDb) :
    (linkMessagesToPersons db).1.dimHandle = db.dimHandle ∧
    (linkMessagesToPersons db).1.lastMessageDate = db.lastMessageDate := ⟨rfl, rfl⟩

/-! ## `run_etl` projection lemmas -/

theorem runEtl_is_incremental (src : ChatDb) (db : AnalysisDb) (ff : Bool) (now : Nat) :
    (runEtl src db ff now).1.is_incremental =
      (if ff then none else db.lastMessageDate).isSome := rfl

theorem runEtl_messages_loaded (src : ChatDb) (db : AnalysisDb) (ff : Bool) (now : Nat) :
    (runEtl src db ff now).1.messages_loaded =
      (loadMessages (loadHandles db.dimHandle (extractHandles src) now).1 db.factMessage
        (extractMessages src (if ff then none else db.lastMessageDate)) now).2 := rfl

/-- The state `run_etl` has built just after Step 5 (handles and messages
loaded, before identity resolution). -/
def dbAfterLoad (src : ChatDb) (db : AnalysisDb) (ff : Bool) (now : Nat) : AnalysisDb :=
  { db with
    dimHandle := (loadHandles db.dimHandle (extractHandles src) now).1
    factMessage := (loadMessages (loadHandles db.dimHandle (extractHandles src) now).1
      db.factMessage (extractMessages src (if ff then none else db.lastMessageDate)) now).1 }

theorem db_step9_factMessage (x : AnalysisDb) (c : Bool) (d : Option Nat) (n : Nat) :
    ({ (if c = true then x else { x with lastMessageDate := d }) with
        lastSync := some n } : AnalysisDb).factMessage = x.factMessage := by
  cases c <;> rfl

theorem db_step9_lastMessageDate (x : AnalysisDb) (c : Bool) (d : Option Nat) (n : Nat) :
    ({ (if c = true then x else { x with lastMessageDate := d }) with
        lastSync := some n } : AnalysisDb).lastMessageDate =
      (if c = true then x.lastMessageDate else d) := by
  cases c <;> rfl

theorem runEtl_factMessage (src : ChatDb) (db : AnalysisDb) (ff : Bool) (now : Nat) :
    (runEtl src db ff now).2.factMessage =
      (linkMessagesToPersons
        (resolveAllHandles (dbAfterLoad src db ff now) now).1).1.factMessage :=
  db_step9_factMessage _ _ _ now

theorem runEtl_lastMessageDate (src : ChatDb) (db : AnalysisDb) (ff : Bool) (now : Nat) :
    (runEtl src db ff now).2.lastMessageDate =
      (if (extractMessages src (if ff then none else db.lastMessageDate)).isEmpty = true
        then db.lastMessageDate
        else some (maxDateUtc (extractMessages src (if ff then none else db.lastMessageDate)))) := by
  have h := db_step9_lastMessageDate
    (linkMessagesToPersons (resolveAllHandles (dbAfterLoad src db ff now) now).1).1
    (extractMessages src (if ff then none else db.lastMessageDate)).isEmpty
    (some (maxDateUtc (extractMessages src (if ff then none else db.lastMessageDate))))
    now
  refine Eq.trans h ?_
  by_cases hc : (extractMessages src (if ff then none else db.lastMessageDate)).isEmpty = true
  · rw [if_pos hc, if_pos hc]
    rw [(linkMessagesToPersons_fields _).2,
      (resolveAllHandles_preserves (dbAfterLoad src db ff now) now).2.1]
    rfl
  · rw [if_neg hc, if_neg hc]

theorem runEtl_factIds (src : ChatDb) (db : AnalysisDb) (ff : Bool) (now : Nat) :
    factIds (runEtl src db ff now).2.factMessage =
      factIds (loadMessages (loadHandles db.dimHandle (extractHandles src) now).1
        db.factMessage (extractMessages src (if ff then none else db.lastMessageDate)) now).1 := by
  rw [runEtl_factMessage, linkMessagesToPersons_factIds]
  have h := (resolveAllHandles_preserves (dbAfterLoad src db ff now) now).1
  rw [h]
  rfl

/-! ## Claim C1: the second run against an unchanged source -/

/-- C1 (amended): running the pipeline twice against an unchanged source
yields, on the second run, `is_incremental = true` and
`messages_loaded = 0`, provided the `last_message_date` checkpoint can be
set — the target already carries one, or the source holds at least one
message with a nonzero timestamp.  (Without that proviso the checkpoint is
never written and the second run reports `is_incremental = false`, though
it still loads 0 messages.) -/
theorem c1_second_run_incremental_and_zero :
    ∀ (src : ChatDb) (db0 : AnalysisDb) (t1 t2 : Nat),
      (db0.lastMessageDate.isSome = true ∨ ∃ m ∈ src.messages, m.date ≠ 0) →
      (runEtl src (runEtl src db0 false t1).2 false t2).1.is_incremental = true ∧
      (runEtl src (runEtl src db0 false t1).2 false t2).1.messages_loaded = 0 := by
  intro src db0 t1 t2 hyp
  have hff : (if false then none else db0.lastMessageDate) = db0.lastMessageDate := rfl
  set db1 := (runEtl src db0 false t1).2 with hdb1def
  set msgs1 := extractMessages src db0.lastMessageDate with hmsgs1
  have hfact1 : factIds db1.factMessage =
      factIds (loadMessages (loadHandles db0.dimHandle (extractHandles src) t1).1
        db0.factMessage msgs1 t1).1 := by
    rw [hdb1def, runEtl_factIds, hff, ← hmsgs1]
  have hmem1 : ∀ m ∈ msgs1, m.rowid ∈ factIds db1.factMessage := by
    intro m hm
    rw [hfact1]
    exact loadMessages_mem _ _ _ _ m hm
  have hlmd1 : db1.lastMessageDate =
      (if msgs1.isEmpty = true then db0.lastMessageDate
        else some (maxDateUtc msgs1)) := by
    rw [hdb1def, runEtl_lastMessageDate, hff, ← hmsgs1]
  constructor
  · rw [runEtl_is_incremental]
    show db1.lastMessageDate.isSome = true
    rw [hlmd1]
    by_cases he : msgs1.isEmpty = true
    · rw [if_pos he]
      cases hB : db0.lastMessageDate with
      | some T => rfl
      | none =>
        rcases hyp with hs | ⟨x, hx, hd⟩
        · rw [hB] at hs
          exact absurd hs (by decide)
        · exfalso
          have hmm : convMsg x ∈ msgs1 := by
            rw [hmsgs1, hB]
            exact extractMessages_mem_intro hx hd none (fun B hB2 => by cases hB2)
          rw [List.isEmpty_iff] at he
          rw [he] at hmm
          exact absurd hmm (List.not_mem_nil _)
    · rw [if_neg he]
      rfl
  · rw [runEtl_messages_loaded]
    have hff1 : (if false then none else db1.lastMessageDate) =
      db1.lastMessageDate := rfl
    rw [hff1]
    have hpresent : ∀ m ∈ extractMessages src db1.lastMessageDate,
        m.rowid ∈ factIds db1.factMessage := by
      intro m hm
      obtain ⟨x, hx, hd, hme, hbound⟩ := extractMessages_mem_elim hm
      subst hme
      apply hmem1
      rw [hmsgs1]
      apply extractMessages_mem_intro hx hd
      intro T hT
      rw [hlmd1] at hbound
      by_cases he : msgs1.isEmpty = true
      · rw [if_pos he] at hbound
        exact hbound T hT
      · rw [if_neg he] at hbound
        have hxM : secToAppleNs (maxDateUtc msgs1) < x.date := hbound _ rfl
        have hTM : T ≤ maxDateUtc msgs1 := by
          have hne : msgs1 ≠ [] := fun h0 => he (by rw [h0]; rfl)
          obtain ⟨m0, hm0⟩ := List.exists_mem_of_ne_nil msgs1 hne
          have hm0x := hm0
          rw [hmsgs1] at hm0x
          obtain ⟨y, hy, hyd, hym, hybound⟩ := extractMessages_mem_elim hm0x
          have hyT : secToAppleNs T < y.date := hybound T hT
          have h1 : T ≤ nsToSec y.date := nsToSec_ge hyT
          have h2 : m0.date_utc = nsToSec y.date := by
            rw [hym]
            rfl
          have h3 : m0.date_utc ≤ maxDateUtc msgs1 := maxDateUtc_ge hm0
          omega
        exact Nat.lt_of_le_of_lt (secToAppleNs_mono hTM) hxM
    rw [loadMessages_all_present _ _ _ _ hpresent]

/-- Witness for C1 at a one-message source against a fresh target. -/
theorem c1_witness :
    (runEtl
      { handles := [{ rowid := 1, ident := some "a@b.co".toList }],
        messages := [{ rowid := 10, chat_id := some 1, handle_id := some 1,
                       text := some "hi".toList, date := 5500000000,
                       is_from_me := false }] }
      (runEtl
        { handles := [{ rowid := 1, ident := some "a@b.co".toList }],
          messages := [{ rowid := 10, chat_id := some 1, handle_id := some 1,
                         text := some "hi".toList, date := 5500000000,
                         is_from_me := false }] }
        emptyAnalysisDb false 10).2 false 20).1.is_incremental = true ∧
    (runEtl
      { handles := [{ rowid := 1, ident := some "a@b.co".toList }],
        messages := [{ rowid := 10, chat_id := some 1, handle_id := some 1,
                       text := some "hi".toList, date := 5500000000,
                       is_from_me := false }] }
      (runEtl
        { handles := [{ rowid := 1, ident := some "a@b.co".toList }],
          messages := [{ rowid := 10, chat_id := some 1, handle_id := some 1,
                         text := some "hi".toList, date := 5500000000,
                         is_from_me := false }] }
        emptyAnalysisDb false 10).2 false 20).1.messages_loaded = 0 :=
  c1_second_run_incremental_and_zero _ emptyAnalysisDb 10 20 (Or.inr (by decide))

/-- Counterexample to C1 as stated: against an unchanged source with no
messages (and a fresh target), the second invocation of `run_etl` reports
`is_incremental = false`, not `true`, because the first run never wrote the
`last_message_date` checkpoint. -/
theorem c1_counterexample :
    (runEtl { handles := [], messages := [] }
      (runEtl { handles := [], messages := [] } emptyAnalysisDb false 1).2
      false 2).1.is_incremental = false := by
  decide

/-! ## Referential-integrity lemmas (claim C5) -/

theorem loadHandlesStep_ids (tbl : List DimHandleRow) (h : Handle) (now : Nat) :
    ∀ a ∈ handleIds tbl, a ∈ handleIds (loadHandlesStep tbl h now) := by
  intro a ha
  rw [loadHandlesStep_eq]
  unfold handleIds at ha ⊢
  rw [List.map_append]
  by_cases hae : a = h.rowid
  · refine List.mem_append.mpr (Or.inr ?_)
    simp [upsertedRow, hae]
  · refine List.mem_append.mpr (Or.inl ?_)
    obtain ⟨r, hr, hre⟩ := List.mem_map.mp ha
    refine List.mem_map.mpr ⟨r, List.mem_filter.mpr ⟨hr, ?_⟩, hre⟩
    simp [hre, hae]

theorem loadHandlesFold_ids (now : Nat) :
    ∀ (handles : List Handle) (tbl : List DimHandleRow) (a : Nat),
      a ∈ handleIds tbl →
      a ∈ handleIds (handles.foldl (fun t h => loadHandlesStep t h now) tbl) := by
  intro handles
  induction handles with
  | nil => intro tbl a ha; exact ha
  | cons h hs ih =>
    intro tbl a ha
    rw [List.foldl_cons]
    exact ih _ a (loadHandlesStep_ids tbl h now a ha)

theorem loadHandlesStep_refs (persons : List PersonRow) (tbl : List DimHandleRow)
    (h : Handle) (now : Nat)
    (hv : ∀ r ∈ tbl, ∀ p, r.person_id = some p → p ∈ personIds persons) :
    ∀ r ∈ loadHandlesStep tbl h now, ∀ p, r.person_id = some p →
      p ∈ personIds persons := by
  intro r hr p hp
  rw [loadHandlesStep_eq] at hr
  rcases List.mem_append.mp hr with h1 | h2
  · exact hv r (List.mem_of_mem_filter h1) p hp
  · have hre : r = upsertedRow tbl h now := List.mem_singleton.mp h2
    subst hre
    have hp2 : (findHandle tbl h.rowid).bind (fun r => r.person_id) = some p := hp
    obtain ⟨r0, hr0, hr0p⟩ := Option.bind_eq_some.mp hp2
    exact hv r0 (List.mem_of_find?_eq_some hr0) p hr0p

theorem loadHandlesFold_refs (persons : List PersonRow) (now : Nat) :
    ∀ (handles : List Handle) (tbl : List DimHandleRow),
      (∀ r ∈ tbl, ∀ p, r.person_id = some p → p ∈ personIds persons) →
      ∀ r ∈ handles.foldl (fun t h => loadHandlesStep t h now) tbl, ∀ p,
        r.person_id = some p → p ∈ personIds persons := by
  intro handles
  induction handles with
  | nil => intro tbl hv; exact hv
  | cons h hs ih =>
    intro tbl hv
    rw [List.foldl_cons]
    exact ih _ (loadHandlesStep_refs persons tbl h now hv)

theorem loadMessagesGo_refs (validIds : List Nat) (now : Nat) :
    ∀ (msgs : List Message) (fact : List FactMessageRow) (n : Nat),
      (∀ r ∈ fact, ∀ h, r.handle_id = some h → h ∈ validIds) →
      ∀ r ∈ (loadMessagesGo validIds now fact n msgs).1, ∀ h,
        r.handle_id = some h → h ∈ validIds := by
  intro msgs
  induction msgs with
  | nil => intro fact n hv; exact hv
  | cons a ms ih =>
    intro fact n hv
    simp only [loadMessagesGo]
    split
    · exact ih fact n hv
    · apply ih
      intro r hr h hh
      rcases List.mem_append.mp hr with hr1 | hr2
      · exact hv r hr1 h hh
      · have hre := List.mem_singleton.mp hr2
        rw [hre] at hh
        cases ha : a.handle_id with
        | none =>
          rw [ha] at hh
          exact Option.noConfusion hh
        | some h0 =>
          rw [ha] at hh
          simp only [] at hh
          by_cases hin : h0 ∈ validIds
          · rw [if_pos hin] at hh
            exact (Option.some.inj hh) ▸ hin
          · rw [if_neg hin] at hh
            exact Option.noConfusion hh

theorem resolveAllGo_refsValid (now : Nat) :
    ∀ (items : List (Nat × Str × Str)) (db : AnalysisDb),
      (∀ r ∈ db.dimHandle, ∀ p, r.person_id = some p → p ∈ personIds db.dimPerson) →
      (∀ cm ∈ db.dimContactMethod, cm.person_id ∈ personIds db.dimPerson) →
      ∀ r ∈ (resolveAllGo now db items).dimHandle, ∀ p, r.person_id = some p →
        p ∈ personIds (resolveAllGo now db items).dimPerson := by
  intro items
  induction items with
  | nil => intro db hv _; exact hv
  | cons it ts ih =>
    intro db hv hcm
    obtain ⟨hid, v, t⟩ := it
    obtain ⟨-, h2, -, -, h5, pid, hdim, hvalid⟩ := resolveOneHandle_spec db hid v t now
    apply ih (resolveOneHandle db hid v t now)
    · intro r hr p hp
      rw [hdim] at hr
      unfold linkHandleToPerson at hr
      obtain ⟨r0, hr0, hr0e⟩ := List.mem_map.mp hr
      by_cases hc : r0.handle_id = hid
      · rw [if_pos hc] at hr0e
        rw [← hr0e] at hp
        have hpp : pid = p := Option.some.inj hp
        exact hpp ▸ hvalid hcm
      · rw [if_neg hc] at hr0e
        subst hr0e
        exact h5 p (hv r0 hr0 p hp)
    · intro cm hcm2
      rw [h2] at hcm2
      exact h5 _ (hcm cm hcm2)

theorem db_step9_dimHandle (x : AnalysisDb) (c : Bool) (d : Option Nat) (n : Nat) :
    ({ (if c = true then x else { x with lastMessageDate := d }) with
        lastSync := some n } : AnalysisDb).dimHandle = x.dimHandle := by
  cases c <;> rfl

theorem db_step9_dimPerson (x : AnalysisDb) (c : Bool) (d : Option Nat) (n : Nat) :
    ({ (if c = true then x else { x with lastMessageDate := d }) with
        lastSync := some n } : AnalysisDb).dimPerson = x.dimPerson := by
  cases c <;> rfl

theorem runEtl_dimHandle (src : ChatDb) (db : AnalysisDb) (ff : Bool) (now : Nat) :
    (runEtl src db ff now).2.dimHandle =
      (linkMessagesToPersons
        (resolveAllHandles (dbAfterLoad src db ff now) now).1).1.dimHandle :=
  db_step9_dimHandle _ _ _ now

theorem runEtl_dimPerson (src : ChatDb) (db : AnalysisDb) (ff : Bool) (now : Nat) :
    (runEtl src db ff now).2.dimPerson =
      (linkMessagesToPersons
        (resolveAllHandles (dbAfterLoad src db ff now) now).1).1.dimPerson :=
  db_step9_dimPerson _ _ _ now

/-- C5: after any complete `run_etl`, every message whose handle reference
is non-null references a handle that exists in `dim_handle` (unknown ids
were replaced by NULL, the messages themselves loaded rather than
rejected), and every handle whose person reference is non-null references
an existing person. -/
theorem c5_referential_integrity :
    ∀ (src : ChatDb) (db : AnalysisDb) (ff : Bool) (now : Nat),
      messageRefsValid db → handleRefsValid db → contactMethodRefsValid db →
      messageRefsValid (runEtl src db ff now).2 ∧
      handleRefsValid (runEtl src db ff now).2 ∧
      (∀ m ∈ extractMessages src (if ff then none else db.lastMessageDate),
        m.rowid ∈ factIds (runEtl src db ff now).2.factMessage) := by
  intro src db ff now hmsg hhandle hcm
  have htbl1 : ∀ a ∈ handleIds db.dimHandle,
      a ∈ handleIds (loadHandles db.dimHandle (extractHandles src) now).1 :=
    loadHandlesFold_ids now (extractHandles src) db.dimHandle
  have htbl1refs : ∀ r ∈ (loadHandles db.dimHandle (extractHandles src) now).1,
      ∀ p, r.person_id = some p → p ∈ personIds db.dimPerson :=
    loadHandlesFold_refs db.dimPerson now (extractHandles src) db.dimHandle hhandle
  -- the state after Step 5
  have hafter_msg : ∀ r ∈ (dbAfterLoad src db ff now).factMessage, ∀ h,
      r.handle_id = some h →
      h ∈ handleIds (dbAfterLoad src db ff now).dimHandle := by
    intro r hr h hh
    refine loadMessagesGo_refs _ now _ db.factMessage 0 ?_ r hr h hh
    intro r0 hr0 h0 hh0
    exact htbl1 h0 (hmsg r0 hr0 h0 hh0)
  have hafter_handle : ∀ r ∈ (dbAfterLoad src db ff now).dimHandle, ∀ p,
      r.person_id = some p → p ∈ personIds (dbAfterLoad src db ff now).dimPerson :=
    htbl1refs
  have hafter_cm : ∀ cm ∈ (dbAfterLoad src db ff now).dimContactMethod,
      cm.person_id ∈ personIds (dbAfterLoad src db ff now).dimPerson := hcm
  -- after resolution
  have hres_handle := resolveAllGo_refsValid now
    (((dbAfterLoad src db ff now).dimHandle.filter (fun r => r.person_id = none)).map
      (fun r => (r.handle_id, r.value_normalized, r.handle_type)))
    (dbAfterLoad src db ff now) hafter_handle hafter_cm
  obtain ⟨hres_fact, hres_lmd, hres_ids⟩ :=
    resolveAllHandles_preserves (dbAfterLoad src db ff now) now
  refine ⟨?_, ?_, ?_⟩
  · -- message references
    intro m hm h hh
    rw [runEtl_factMessage] at hm
    rw [runEtl_dimHandle]
    obtain ⟨m0, hm0, hm0e⟩ := List.mem_map.mp hm
    have hid0 : m0.handle_id = some h := by
      rw [← hm0e] at hh
      by_cases hc : m0.handle_id.isSome = true ∧ m0.person_id = none
      · rw [if_pos hc] at hh
        exact hh
      · rw [if_neg hc] at hh
        exact hh
    have hfm : m0 ∈ (resolveAllHandles (dbAfterLoad src db ff now) now).1.factMessage := hm0
    rw [hres_fact] at hfm
    have := hafter_msg m0 hfm h hid0
    show h ∈ handleIds (resolveAllHandles (dbAfterLoad src db ff now) now).1.dimHandle
    rw [hres_ids]
    exact this
  · -- handle references
    intro r hr p hp
    rw [runEtl_dimHandle] at hr
    rw [runEtl_dimPerson]
    exact hres_handle r hr p hp
  · -- every extracted message is stored
    intro m hm
    rw [runEtl_factIds]
    exact loadMessages_mem _ _ _ _ m hm

/-- Witness for C5: a fresh target and a source whose only message refers
to a handle id absent from the source's handle table. -/
theorem c5_witness :
    let src : ChatDb :=
      { handles := [{ rowid := 1, ident := some "+14155551234".toList }],
        messages := [{ rowid := 10, chat_id := some 1, handle_id := some 99,
                       text := some "hi".toList, date := 5500000000,
                       is_from_me := false }] }
    messageRefsValid (runEtl src emptyAnalysisDb false 7).2 ∧
    handleRefsValid (runEtl src emptyAnalysisDb false 7).2 ∧
    (∀ m ∈ extractMessages src (if false then none else emptyAnalysisDb.lastMessageDate),
      m.rowid ∈ factIds (runEtl src emptyAnalysisDb false 7).2.factMessage) := by
  intro src
  refine c5_referential_integrity src emptyAnalysisDb false 7 ?_ ?_ ?_
  · intro m hm
    exact absurd hm (List.not_mem_nil m)
  · intro r hr
    exact absurd hr (List.not_mem_nil r)
  · intro cm hcm
    exact absurd hcm (List.not_mem_nil cm)

/-! ## Exception control-flow theorems (claims C6 and C10) -/

theorem runEtlCatch_of_ok {s : EtlSteps} {ff : Bool} {o : RunOutcome}
    (h : runEtlCore s ff = Except.ok o) : runEtlCatch s ff = successResult o := by
  unfold runEtlCatch
  rw [h]

theorem runEtlCatch_of_error {s : EtlSteps} {ff : Bool} {e : Str} {b : Bool}
    (h : runEtlCore s ff = Except.error (e, b)) :
    runEtlCatch s ff = failureResult e b := by
  unfold runEtlCatch
  rw [h]

/-- C6: whatever step of `run_etl` raises (schema setup, connection
opening, extraction, loading, the contacts block, resolution, state
update), the exception is caught and turned into a result with
`success = False` and the exception text as error; `run_etl` is total and
never propagates an exception to its caller. -/
theorem c6_run_etl_catches_all_exceptions :
    ∀ (s : EtlSteps) (forceFull : Bool) (e : Str) (b : Bool),
      runEtlCore s forceFull = Except.error (e, b) →
      (runEtlCatch s forceFull).success = false ∧
      (runEtlCatch s forceFull).error = some e := by
  intro s ff e b h
  rw [runEtlCatch_of_error h]
  exact ⟨rfl, rfl⟩

/-- An all-successful set of steps, for concrete instantiation. -/
def sampleStepsOk : EtlSteps :=
  { createSchema := .ok (), openChatDb := .ok (), openAnalysisDb := .ok (),
    enableForeignKeys := .ok (), getLastMessageDate := .ok none,
    extractHandles := .ok [], loadHandles := fun hs => .ok hs.length,
    extractMessages := fun _ => .ok [], loadMessages := fun ms => .ok ms.length,
    contactsRequested := false, contactsConnected := false,
    extractContacts := .ok 0, extractContactPhones := .ok (),
    extractContactEmails := .ok (), loadPersonsFromContacts := .ok 0,
    loadContactMethods := .ok 0, updateLastContactsSync := .ok (),
    resolveAllHandles := .ok 0, linkMessagesToPersons := .ok 0,
    updateLastMessageDate := fun _ => .ok (), updateLastSync := .ok () }

/-- Steps whose message-loading raises. -/
def sampleStepsFailing : EtlSteps :=
  { sampleStepsOk with loadMessages := fun _ => .error "disk full".toList }

/-- Witness for C6: a concrete run whose loading step raises. -/
theorem c6_witness :
    (runEtlCatch sampleStepsFailing false).success = false ∧
    (runEtlCatch sampleStepsFailing false).error = some "disk full".toList :=
  c6_run_etl_catches_all_exceptions sampleStepsFailing false "disk full".toList
    false rfl

/-- C10: whenever `run_etl` returns a result with `success = False`, every
count field of the result is zero — the failure result never reflects
partial progress. -/
theorem c10_failure_result_counts_zero :
    ∀ (s : EtlSteps) (forceFull : Bool),
      (runEtlCatch s forceFull).success = false →
      (runEtlCatch s forceFull).handles_extracted = 0 ∧
      (runEtlCatch s forceFull).handles_loaded = 0 ∧
      (runEtlCatch s forceFull).messages_extracted = 0 ∧
      (runEtlCatch s forceFull).messages_loaded = 0 ∧
      (runEtlCatch s forceFull).handles_resolved = 0 ∧
      (runEtlCatch s forceFull).messages_linked = 0 := by
  intro s ff hfail
  cases h : runEtlCore s ff with
  | ok o =>
    rw [runEtlCatch_of_ok h] at hfail
    exact absurd hfail (by simp [successResult])
  | error eb =>
    obtain ⟨e, b⟩ := eb
    rw [runEtlCatch_of_error h]
    exact ⟨rfl, rfl, rfl, rfl, rfl, rfl⟩

/-- Witness for C10 at the concrete failing run. -/
theorem c10_witness :
    (runEtlCatch sampleStepsFailing false).handles_extracted = 0 ∧
    (runEtlCatch sampleStepsFailing false).handles_loaded = 0 ∧
    (runEtlCatch sampleStepsFailing false).messages_extracted = 0 ∧
    (runEtlCatch sampleStepsFailing false).messages_loaded = 0 ∧
    (runEtlCatch sampleStepsFailing false).handles_resolved = 0 ∧
    (runEtlCatch sampleStepsFailing false).messages_linked = 0 :=
  c10_failure_result_counts_zero sampleStepsFailing false rfl

/-! ## Snapshot-entrypoint theorems (claim C4) -/

/-- C4 (amended): a `FileNotFoundError` or `PermissionError` raised during
snapshot acquisition does not propagate out of `run_etl_with_snapshot`; it
is caught and converted into a structured failed result with error
`"Snapshot error: <e>"`.  Only other exception types propagate. -/
theorem c4_snapshot_errors_are_converted :
    ∀ (m : Str) (snapshotExisted forceNewSnapshot : Bool)
      (runInner : Str → ETLResult),
      runEtlWithSnapshot (Except.error (SnapshotError.fileNotFound m))
        snapshotExisted forceNewSnapshot runInner =
        Except.ok (snapshotFailureResult m) ∧
      runEtlWithSnapshot (Except.error (SnapshotError.permissionError m))
        snapshotExisted forceNewSnapshot runInner =
        Except.ok (snapshotFailureResult m) ∧
      runEtlWithSnapshot (Except.error (SnapshotError.other m))
        snapshotExisted forceNewSnapshot runInner =
        Except.error (SnapshotError.other m) :=
  fun _ _ _ _ => ⟨rfl, rfl, rfl⟩

/-- Counterexample to C4 as stated: with the source database missing
(`get_or_create_snapshot` raises `FileNotFoundError`), the entrypoint does
not let the error propagate — it returns `Except.ok` with a structured
failed result. -/
theorem c4_counterexample :
    runEtlWithSnapshot
      (Except.error (SnapshotError.fileNotFound
        "Source database not found: /tmp/chat.db".toList))
      false false (fun _ => failureResult [] false) =
      Except.ok (snapshotFailureResult "Source database not found: /tmp/chat.db".toList) :=
  rfl

end IMessage
